import Mathlib

/-!
Verification of the dynamo-orm repository (a schema-driven access layer over
DynamoDB, written in TypeScript).

The development shallowly embeds the repository sources:
  - `src/types` / `src/validation/index.ts`: field kinds, `ValidationError`,
    `validateField`, `validateSchema`;
  - `src/utils/expression-builder.ts` (and the identical copy inside
    `src/index.ts`): `buildConditionExpression`;
  - `src/utils/field-helpers.ts`: the `field` builder object;
  - `src/orm.ts` (namespace `OrmTs` below) and the older monolithic
    `src/index.ts` (namespace `IndexTs` below): the `DynamoORM` class with
    `create` / `update` and the value transcoders `preprocessForMarshall` /
    `postprocessFromMarshall`.

Modelling conventions:
  - JavaScript values are the inductive `Value`; `undefined` is `vUndefined`
    (a lookup that misses a key is `Option.none`, which JavaScript cannot
    distinguish from a stored `undefined`; both are "=== undefined").
  - JavaScript objects are association lists in insertion order, matching
    for-in enumeration order of string keys.
  - A JavaScript `Date` is represented by its canonical ISO-8601 rendering
    (`vDate iso`); a valid `Date` is in bijection with that string, so
    `toISOString` becomes the identity on the stored string and
    `new Date(iso)` rebuilds `vDate iso`.  Invalid dates are outside the
    model.
  - A JavaScript `Set` is its list of elements in insertion order; the `Set`
    constructor deduplicates with SameValueZero, which on the primitive
    values a schema set may hold is structural equality, and on fresh
    object references never identifies two elements.
  - JavaScript numbers are modelled as integers (`Int`); `NaN` and
    fractional values are outside the model (no claim touches them), so
    `Number.isInteger` is constantly true.
  - The AWS SDK `marshall`/`unmarshall` pair and the network client are the
    external transport boundary: request descriptors carry the native maps
    handed to `marshall`, and store responses are the maps `unmarshall`
    returns.  A request list records what is handed to `client.send`.
  - Default-value generator functions are modelled as functions of an
    invocation counter that the access layer threads through a call, so
    that distinct invocations are observable; each invocation is also
    logged in a trace of field names.
-/

/-- Native JavaScript values as used by the ORM: primitive scalars, dates,
sets, arrays and plain objects. -/
inductive Value where
  | vNull
  | vUndefined
  | vStr (s : String)
  | vNum (n : Int)
  | vBool (b : Bool)
  | vDate (iso : String)
  | vSet (elems : List Value)
  | vArr (elems : List Value)
  | vObj (entries : List (String × Value))

/-- A record: a JavaScript object in insertion order. -/
abbrev Record := List (String × Value)

/-- Property read `r[k]`: first entry with the key, `none` when absent. -/
def recordGet (r : Record) (k : String) : Option Value :=
  match r with
  | [] => none
  | (k2, v) :: rest => if k2 = k then some v else recordGet rest k

/-- Property write `r[k] = v`: overwrite in place, else append (JavaScript
object assignment keeps the key position of an existing key and appends a
new key at the end). -/
def recordSet (r : Record) (k : String) (v : Value) : Record :=
  match r with
  | [] => [(k, v)]
  | (k2, v2) :: rest => if k2 = k then (k, v) :: rest else (k2, v2) :: recordSet rest k v

/-- The JavaScript test `value === undefined || value === null`. -/
def isNullish : Option Value → Bool
  | none => true
  | some .vUndefined => true
  | some .vNull => true
  | some _ => false

/-- The JavaScript test `value === undefined` (a missing key or a stored
`undefined`). -/
def isUndef : Option Value → Bool
  | none => true
  | some .vUndefined => true
  | some _ => false

/-- The seven field kinds of the schema model (`FieldType` in `src/types`). -/
inductive FieldType where
  | stringT
  | numberT
  | booleanT
  | dateT
  | arrayT
  | objectT
  | setT
  deriving DecidableEq

/-- Element kind of a set field (`itemType` in `src/types`). -/
inductive SetItemKind where
  | stringKind
  | numberKind
  deriving DecidableEq

/-- A schema default: `typeof field.default === "function"` distinguishes a
zero-argument generator from a literal.  A generator is modelled as a
function of the invocation counter. -/
inductive DefaultVal where
  | lit (v : Value)
  | gen (g : Nat → Value)

/-- Result of a custom `validate` callback: `boolean | string`. -/
inductive VResult where
  | bool (b : Bool)
  | str (s : String)

/-- One schema field (`FieldDef` in `src/types`): the kind tag together with the
optional constraints of every kind (the source reads kind-specific options
through a cast, so one flat structure is the faithful runtime shape).
`pattern` is the `RegExp.test` closure.  The `items` / `properties` options
of array/object fields are never read by any embedded operation and are
omitted. -/
structure FieldDef where
  type : FieldType
  required : Bool := false
  default : Option DefaultVal := none
  validate : Option (Value → VResult) := none
  minLength : Option Nat := none
  maxLength : Option Nat := none
  pattern : Option (String → Bool) := none
  min : Option Int := none
  max : Option Int := none
  integer : Bool := false
  itemType : Option SetItemKind := none

/-- A schema: field name to field, in declaration order. -/
abbrev Schema := List (String × FieldDef)

/-- Schema lookup `schema[name]`. -/
def schemaGet (s : Schema) (k : String) : Option FieldDef :=
  match s with
  | [] => none
  | (k2, fd) :: rest => if k2 = k then some fd else schemaGet rest k

/-- Table configuration (`TableConfig`): only the parts the embedded
operations read. -/
structure TableConfig where
  tableName : String
  partitionKey : String
  sortKey : Option String := none

/-- ValidationError: message plus the optional structured field name (the
source constructor takes `(message, field?)`; every call site passes only
the message, leaving `field` unset). -/
structure ValidationError where
  message : String
  field : Option String := none
  deriving DecidableEq

/-- Decimal rendering of a natural number, as the template literal
`${index}` renders a JavaScript integer: big-endian decimal digits. -/
def natChars (n : Nat) : List Char :=
  if n = 0 then [Char.ofNat 48] else (Nat.digits 10 n).reverse.map Nat.digitChar

/-- Decimal rendering as a string. -/
def natStr (n : Nat) : String :=
  String.mk (natChars n)

/-! ### Value transcoder, outbound (`preprocessForMarshall`)

Both `src/orm.ts` and `src/index.ts` carry the same function: a `Set`
becomes `Array.from` of its elements (no recursion into the elements), a
`Date` becomes its ISO string, arrays and plain objects are converted
element-wise / key-wise, everything else is returned unchanged. -/

mutual

def preprocessForMarshall : Value → Value
  | .vSet l => .vArr l
  | .vDate iso => .vStr iso
  | .vArr l => .vArr (preprocessList l)
  | .vObj kvs => .vObj (preprocessObj kvs)
  | v => v

def preprocessList : List Value → List Value
  | [] => []
  | v :: vs => preprocessForMarshall v :: preprocessList vs

def preprocessObj : List (String × Value) → List (String × Value)
  | [] => []
  | (k, v) :: kvs => (k, preprocessForMarshall v) :: preprocessObj kvs

end

/-- Outbound conversion of a whole record, as `preprocessForMarshall`
performs on the top-level item object. -/
def preprocessRecord (r : Record) : Record :=
  preprocessObj r

/-! ### JavaScript `Set` construction -/

/-- SameValueZero on modelled values: structural equality on primitives;
object-like values (fresh references after unmarshalling) are never
identified. -/
def sameValueZero : Value → Value → Bool
  | .vNull, .vNull => true
  | .vStr a, .vStr b => a = b
  | .vNum a, .vNum b => a = b
  | .vBool a, .vBool b => a = b
  | _, _ => false

/-- One `Set.add` step: skip the element when an equal one is present. -/
def addSVZ (acc : List Value) (v : Value) : List Value :=
  if acc.any (fun w => sameValueZero w v) then acc else acc ++ [v]

/-- The `new Set(array)` constructor: insert the elements left to right,
deduplicating with SameValueZero, keeping first-occurrence order. -/
def setFromList (l : List Value) : List Value :=
  l.foldl addSVZ []

/-- Pairwise SameValueZero-distinctness (the invariant of a `Set`). -/
def distinctSVZ : List Value → Bool
  | [] => true
  | v :: vs => vs.all (fun w => !sameValueZero v w) && distinctSVZ vs

/-- Scalar values: the element shapes a schema set may hold. -/
def isScalarB : Value → Bool
  | .vStr _ => true
  | .vNum _ => true
  | .vBool _ => true
  | .vNull => true
  | _ => false

/-! ### Value transcoder, inbound

`src/orm.ts`: a single pass over the top-level keys of the unmarshalled
item; a field typed `date` with a string value becomes a `Date`, a field
typed `set` with an array value becomes a `Set`, everything else is copied
unchanged (no recursion).

`src/index.ts`: the same top-level conversions, but the function recurses
into arrays and nested objects, looking every nested key up in the
top-level schema again. -/

/-- Conversion of one entry of the unmarshalled item (`src/orm.ts`,
`postprocessFromMarshall` loop body). -/
def OrmTs.postprocessEntry (schema : Schema) (k : String) (v : Value) : Value :=
  match schemaGet schema k with
  | some fd =>
      match fd.type, v with
      | .dateT, .vStr s => .vDate s
      | .setT, .vArr l => .vSet (setFromList l)
      | _, _ => v
  | none => v

/-- Inbound transcoder of `src/orm.ts` (`postprocessFromMarshall`). -/
def OrmTs.postprocessFromMarshall (schema : Schema) (item : Record) : Record :=
  match item with
  | [] => []
  | (k, v) :: rest => (k, OrmTs.postprocessEntry schema k v) :: OrmTs.postprocessFromMarshall schema rest

/-- One entry of the `src/index.ts` inbound loop: `ofd` is the top-level
schema lookup of the entry key, `v` the wire value, and `pv` the recursive
`postprocessFromMarshall` of `v`.  A `set`-typed key with an array value
becomes a `Set`, a `date`-typed key with a string value becomes a `Date`;
every other branch of the source switch returns exactly the recursive
conversion (`.vArr (postList l)`, `.vStr s` and the recursive catch-all
all coincide with `pv`). -/
def IndexTs.postEntry (ofd : Option FieldDef) (v : Value) (pv : Value) : Value :=
  match ofd, v with
  | some fd, .vArr l =>
      if fd.type = FieldType.setT then Value.vSet (setFromList l) else pv
  | some fd, .vStr s =>
      if fd.type = FieldType.dateT then Value.vDate s else pv
  | _, _ => pv

mutual

/-- Inbound transcoder of `src/index.ts` (`postprocessFromMarshall`):
recursive.  Unmarshalled input never contains `vDate`/`vSet`; the model
returns them unchanged on those unreachable shapes. -/
def IndexTs.postprocessFromMarshall (schema : Schema) : Value → Value
  | .vArr l => .vArr (IndexTs.postList schema l)
  | .vObj kvs => .vObj (IndexTs.postObj schema kvs)
  | v => v

def IndexTs.postList (schema : Schema) : List Value → List Value
  | [] => []
  | v :: vs => IndexTs.postprocessFromMarshall schema v :: IndexTs.postList schema vs

def IndexTs.postObj (schema : Schema) : List (String × Value) → List (String × Value)
  | [] => []
  | (k, v) :: rest =>
      (k, IndexTs.postEntry (schemaGet schema k) v (IndexTs.postprocessFromMarshall schema v))
        :: IndexTs.postObj schema rest

end

/-! ### Compatibility of a native record with a schema

A value nested below the top level is *inert* when both transcoders leave
it unchanged: it contains no `Date` and no `Set` (outbound conversion is
the identity), and no nested object key collides with a top-level schema
field of kind `set`/`date` in a convertible shape (the `src/index.ts`
inbound recursion looks nested keys up in the top-level schema; the spec
flags this top-level-only kind direction as intentional behaviour). -/

/-- Whether a nested object entry under key `k` with value `v` is in a
shape the `src/index.ts` inbound recursion would convert (nested keys are
looked up in the top-level schema). -/
def nestedGuardB (ofd : Option FieldDef) (v : Value) : Bool :=
  match ofd, v with
  | some fd, .vArr _ => !(fd.type = FieldType.setT)
  | some fd, .vStr _ => !(fd.type = FieldType.dateT)
  | _, _ => true

mutual

def inertB (schema : Schema) : Value → Bool
  | .vDate _ => false
  | .vSet _ => false
  | .vArr l => inertListB schema l
  | .vObj kvs => inertObjB schema kvs
  | _ => true

def inertListB (schema : Schema) : List Value → Bool
  | [] => true
  | v :: vs => inertB schema v && inertListB schema vs

def inertObjB (schema : Schema) : List (String × Value) → Bool
  | [] => true
  | (k, v) :: rest =>
      nestedGuardB (schemaGet schema k) v && inertB schema v && inertObjB schema rest

end

/-- Compatibility of one top-level value with its declared field: the value
matches the declared kind (or is `null`, which validation admits for
non-required fields and both transcoders pass through); set elements are
scalars and pairwise distinct; array/object contents are inert. -/
def fieldCompatB (schema : Schema) (fd : FieldDef) (v : Value) : Bool :=
  match fd.type, v with
  | _, .vNull => true
  | .stringT, .vStr _ => true
  | .numberT, .vNum _ => true
  | .booleanT, .vBool _ => true
  | .dateT, .vDate _ => true
  | .setT, .vSet l => l.all isScalarB && distinctSVZ l
  | .arrayT, .vArr l => inertListB schema l
  | .objectT, .vObj kvs => inertObjB schema kvs
  | _, _ => false

/-- Compatibility of a record with a schema: every key is declared and its
value is compatible with the declared field. -/
def compatRecordB (schema : Schema) (r : Record) : Bool :=
  r.all fun kv =>
    match schemaGet schema kv.1 with
    | some fd => fieldCompatB schema fd kv.2
    | none => false

/-! ### Validator (`src/validation/index.ts`) -/

/-- String `pattern` check (runs after the length checks). -/
def stringPatternCheck (fd : FieldDef) (fieldName : String) (s : String) : Except ValidationError Unit :=
  match fd.pattern with
  | some p =>
      if !(p s) then
        .error ⟨"Field \x27" ++ fieldName ++ "\x27 does not match required pattern", none⟩
      else .ok ()
  | none => .ok ()

/-- String `maxLength` check; JavaScript truthiness skips a configured 0. -/
def stringMaxCheck (fd : FieldDef) (fieldName : String) (s : String) : Except ValidationError Unit :=
  match fd.maxLength with
  | some m =>
      if m ≠ 0 && s.length > m then
        .error ⟨"Field \x27" ++ fieldName ++ "\x27 must be at most " ++ toString m ++ " characters", none⟩
      else stringPatternCheck fd fieldName s
  | none => stringPatternCheck fd fieldName s

/-- String `minLength` check; JavaScript truthiness skips a configured 0. -/
def stringMinCheck (fd : FieldDef) (fieldName : String) (s : String) : Except ValidationError Unit :=
  match fd.minLength with
  | some m =>
      if m ≠ 0 && s.length < m then
        .error ⟨"Field \x27" ++ fieldName ++ "\x27 must be at least " ++ toString m ++ " characters", none⟩
      else stringMaxCheck fd fieldName s
  | none => stringMaxCheck fd fieldName s

/-- Whether the configured (truthy) `minLength` rejects `s`. -/
def strMinViolationB (fd : FieldDef) (s : String) : Bool :=
  match fd.minLength with
  | some m => m ≠ 0 && s.length < m
  | none => false

/-- Whether the configured (truthy) `maxLength` rejects `s`. -/
def strMaxViolationB (fd : FieldDef) (s : String) : Bool :=
  match fd.maxLength with
  | some m => m ≠ 0 && s.length > m
  | none => false

/-- The JavaScript `Number.isInteger`; the model carries integers only. -/
def numberIsIntegerJS (_n : Int) : Bool := true

/-- Number `max` check (the source compares against `undefined`, not
truthiness, for `min`/`max`). -/
def numberMaxCheck (fd : FieldDef) (fieldName : String) (n : Int) : Except ValidationError Unit :=
  match fd.max with
  | some m =>
      if n > m then
        .error ⟨"Field \x27" ++ fieldName ++ "\x27 must be at most " ++ toString m, none⟩
      else .ok ()
  | none => .ok ()

/-- Number `min` check, then `max`. -/
def numberMinCheck (fd : FieldDef) (fieldName : String) (n : Int) : Except ValidationError Unit :=
  match fd.min with
  | some m =>
      if n < m then
        .error ⟨"Field \x27" ++ fieldName ++ "\x27 must be at least " ++ toString m, none⟩
      else numberMaxCheck fd fieldName n
  | none => numberMaxCheck fd fieldName n

/-- Number checks: `integer` (truthiness), then `min`, then `max`. -/
def numberChecks (fd : FieldDef) (fieldName : String) (n : Int) : Except ValidationError Unit :=
  if fd.integer && !(numberIsIntegerJS n) then
    .error ⟨"Field \x27" ++ fieldName ++ "\x27 must be an integer", none⟩
  else numberMinCheck fd fieldName n

/-- The kind dispatch of `validateField` (the `switch` on `field.type`).
In the `object` arm, a `Set` or a `Date` is `typeof "object"` and not an
`Array`, so it passes. -/
def typeCheck (v : Value) (fd : FieldDef) (fieldName : String) : Except ValidationError Unit :=
  match fd.type with
  | .stringT =>
      match v with
      | .vStr s => stringMinCheck fd fieldName s
      | _ => .error ⟨"Field \x27" ++ fieldName ++ "\x27 must be a string", none⟩
  | .numberT =>
      match v with
      | .vNum n => numberChecks fd fieldName n
      | _ => .error ⟨"Field \x27" ++ fieldName ++ "\x27 must be a valid number", none⟩
  | .booleanT =>
      match v with
      | .vBool _ => .ok ()
      | _ => .error ⟨"Field \x27" ++ fieldName ++ "\x27 must be a boolean", none⟩
  | .dateT =>
      match v with
      | .vDate _ => .ok ()
      | _ => .error ⟨"Field \x27" ++ fieldName ++ "\x27 must be a valid Date", none⟩
  | .arrayT =>
      match v with
      | .vArr _ => .ok ()
      | _ => .error ⟨"Field \x27" ++ fieldName ++ "\x27 must be an array", none⟩
  | .objectT =>
      match v with
      | .vObj _ => .ok ()
      | .vSet _ => .ok ()
      | .vDate _ => .ok ()
      | _ => .error ⟨"Field \x27" ++ fieldName ++ "\x27 must be an object", none⟩
  | .setT =>
      match v with
      | .vSet _ => .ok ()
      | _ => .error ⟨"Field \x27" ++ fieldName ++ "\x27 must be a Set", none⟩

/-- The custom `validate` callback, run last: a `true` result passes, a
string result fails with that string, any other result fails generically. -/
def customCheck (v : Value) (fd : FieldDef) (fieldName : String) : Except ValidationError Unit :=
  match fd.validate with
  | some f =>
      match f v with
      | .bool true => .ok ()
      | .bool false => .error ⟨"Field \x27" ++ fieldName ++ "\x27 failed validation", none⟩
      | .str s => .error ⟨s, none⟩
  | none => .ok ()

/-- One field validation (`validateField`): required check, nullish skip,
kind dispatch, custom callback. -/
def validateField (value : Option Value) (fd : FieldDef) (fieldName : String) : Except ValidationError Unit :=
  if fd.required && isNullish value then
    .error ⟨"Field \x27" ++ fieldName ++ "\x27 is required", none⟩
  else if isNullish value then .ok ()
  else
    match value with
    | some v =>
        match typeCheck v fd fieldName with
        | .error e => .error e
        | .ok _ => customCheck v fd fieldName
    | none => .ok ()

/-- Whole-record validation (`validateSchema`): every schema field in
declaration order, failing fast on the first violation. -/
def validateSchema (data : Record) (schema : Schema) : Except ValidationError Unit :=
  match schema with
  | [] => .ok ()
  | (fieldName, fd) :: rest =>
      match validateField (recordGet data fieldName) fd fieldName with
      | .error e => .error e
      | .ok _ => validateSchema data rest

/-! ### Condition compiler (`buildConditionExpression`) -/

/-- The `Array.isArray` test. -/
def isArrB : Value → Bool
  | .vArr _ => true
  | _ => false

/-- Predicate operators of `WhereCondition`. -/
inductive CondOp where
  | eq
  | lt
  | le
  | gt
  | ge
  | beginsWith
  | containsOp
  | between
  | inOp
  deriving DecidableEq

/-- One structured predicate (`WhereCondition`); `value2` is only read by
`between` and is `undefined` when the caller omits it. -/
structure WhereCondition where
  field : String
  operator : CondOp
  value : Value
  value2 : Value := .vUndefined

/-- Value-alias table entries the predicate at position `index` writes:
one `:value{index}` key for the plain operators, the `_2`-suffixed second
key for `between`, and one `_{i}`-suffixed key per element of the (possibly
singleton-wrapped) list for `in`. -/
def condValuePairs (index : Nat) (c : WhereCondition) : List (String × Value) :=
  match c.operator with
  | .between =>
      [(":value" ++ natStr index, c.value), (":value" ++ natStr index ++ "_2", c.value2)]
  | .inOp =>
      let inValues : List Value :=
        match c.value with
        | .vArr l => l
        | v => [v]
      inValues.enum.map fun p => (":value" ++ natStr index ++ "_" ++ natStr p.1, p.2)
  | _ => [(":value" ++ natStr index, c.value)]

/-- Expression fragment the predicate at position `index` pushes. -/
def condFragment (index : Nat) (c : WhereCondition) : String :=
  let nameKey := "#field" ++ natStr index
  let valueKey := ":value" ++ natStr index
  match c.operator with
  | .eq => nameKey ++ " = " ++ valueKey
  | .lt => nameKey ++ " < " ++ valueKey
  | .le => nameKey ++ " <= " ++ valueKey
  | .gt => nameKey ++ " > " ++ valueKey
  | .ge => nameKey ++ " >= " ++ valueKey
  | .beginsWith => "begins_with(" ++ nameKey ++ ", " ++ valueKey ++ ")"
  | .containsOp => "contains(" ++ nameKey ++ ", " ++ valueKey ++ ")"
  | .between => nameKey ++ " BETWEEN " ++ valueKey ++ " AND " ++ (valueKey ++ "_2")
  | .inOp =>
      let inValues : List Value :=
        match c.value with
        | .vArr l => l
        | v => [v]
      let inKeys := inValues.enum.map fun p => ":value" ++ natStr index ++ "_" ++ natStr p.1
      nameKey ++ " IN (" ++ String.intercalate ", " inKeys ++ ")"

/-- The `forEach` over the predicate list, carrying the running position:
fragments, name-alias entries and value-alias entries in insertion order. -/
def buildConditionParts (index : Nat) (conds : List WhereCondition) :
    List String × List (String × String) × List (String × Value) :=
  match conds with
  | [] => ([], [], [])
  | c :: rest =>
      let r := buildConditionParts (index + 1) rest
      (condFragment index c :: r.1,
       ("#field" ++ natStr index, c.field) :: r.2.1,
       condValuePairs index c ++ r.2.2)

/-- Result record of the condition compiler. -/
structure CondResult where
  expression : String
  attributeNames : List (String × String)
  attributeValues : List (String × Value)

/-- The condition compiler (`buildConditionExpression`): fragments joined
with " AND ", plus the two alias tables. -/
def buildConditionExpression (conds : List WhereCondition) : CondResult :=
  let r := buildConditionParts 0 conds
  { expression := String.intercalate " AND " r.1
    attributeNames := r.2.1
    attributeValues := r.2.2 }

/-! ### Default filling and `create` -/

/-- Result of the default-filling loop at the top of `create`: the
processed item, the generator invocation counter after the loop, and the
trace of fields whose generator function was invoked (one entry per
invocation). -/
structure DefaultsResult where
  item : Record
  counter : Nat
  trace : List String

/-- The default-filling loop of `create`: for every schema field whose
value is strictly `undefined` and whose field carries a default, assign
the literal or the result of invoking the generator once. -/
def applyDefaults (schema : Schema) (item : Record) (c : Nat) : DefaultsResult :=
  match schema with
  | [] => ⟨item, c, []⟩
  | (name, fd) :: rest =>
      if isUndef (recordGet item name) then
        match fd.default with
        | some (.lit v) => applyDefaults rest (recordSet item name v) c
        | some (.gen g) =>
            let r := applyDefaults rest (recordSet item name (g c)) (c + 1)
            ⟨r.item, r.counter, name :: r.trace⟩
        | none => applyDefaults rest item c
      else applyDefaults rest item c

/-- A put-item request descriptor: the table name, the preprocessed native
item handed to `marshall`, and the optional condition expression. -/
structure PutItemCommand where
  tableName : String
  item : Record
  conditionExpression : Option String := none

/-- Observable outcome of one `create` call: the returned value or the
validation error, the generator counter after the call, the generator
invocation trace, and the request descriptors handed to `client.send`. -/
structure CreateOutcome where
  result : Except ValidationError (PutItemCommand × Record)
  counter : Nat
  trace : List String
  requests : List PutItemCommand

/-- `DynamoORM.create` of `src/orm.ts`: fill defaults, validate, transcode
outbound, issue the put request, return the processed item.  A validation
error aborts before any request descriptor is built or sent. -/
def OrmTs.create (schema : Schema) (config : TableConfig) (item : Record) (c : Nat) : CreateOutcome :=
  let d := applyDefaults schema item c
  match validateSchema d.item schema with
  | .error e => { result := .error e, counter := d.counter, trace := d.trace, requests := [] }
  | .ok _ =>
      let cmd : PutItemCommand :=
        { tableName := config.tableName, item := preprocessRecord d.item, conditionExpression := none }
      { result := .ok (cmd, d.item), counter := d.counter, trace := d.trace, requests := [cmd] }

/-- `DynamoORM.create` of `src/index.ts`: identical, except that the put
request carries `ConditionExpression: attribute_not_exists(<partitionKey>)`. -/
def IndexTs.create (schema : Schema) (config : TableConfig) (item : Record) (c : Nat) : CreateOutcome :=
  let d := applyDefaults schema item c
  match validateSchema d.item schema with
  | .error e => { result := .error e, counter := d.counter, trace := d.trace, requests := [] }
  | .ok _ =>
      let cmd : PutItemCommand :=
        { tableName := config.tableName
          item := preprocessRecord d.item
          conditionExpression := some ("attribute_not_exists(" ++ config.partitionKey ++ ")") }
      { result := .ok (cmd, d.item), counter := d.counter, trace := d.trace, requests := [cmd] }

/-! ### `update` -/

/-- An update-item request descriptor (`ReturnValues: "ALL_NEW"` is implied;
both sources request the post-update image). -/
structure UpdateItemCommand where
  tableName : String
  key : Record
  updateExpression : String
  attributeNames : List (String × String)
  attributeValues : Record

/-- Assignment aliases for the update map: `#field{i} = :value{i}` per
supplied field, in key order. -/
def updateAliasParts (data : Record) : List String × List (String × String) × Record :=
  (data.enum.map fun p => "#field" ++ natStr p.1 ++ " = " ++ ":value" ++ natStr p.1,
   data.enum.map fun p => ("#field" ++ natStr p.1, p.2.1),
   data.enum.map fun p => (":value" ++ natStr p.1, p.2.2))

/-- `DynamoORM.update` of `src/orm.ts`: build the assignment expression,
issue the request, and return the inbound-transcoded post-update image;
a response without `Attributes` is replaced by the empty object
(`unmarshall(Attributes || {})`), so the call returns the empty record
instead of failing.  The store response is passed in as the unmarshalled
`Attributes` map (or `none` when the response carries none). -/
def OrmTs.update (schema : Schema) (config : TableConfig) (key : Record) (data : Record)
    (respAttributes : Option Record) : UpdateItemCommand × Record :=
  let r := updateAliasParts data
  let cmd : UpdateItemCommand :=
    { tableName := config.tableName
      key := key
      updateExpression := "SET " ++ String.intercalate ", " r.1
      attributeNames := r.2.1
      attributeValues := preprocessRecord r.2.2 }
  (cmd, OrmTs.postprocessFromMarshall schema (respAttributes.getD []))

/-- Failure modes of the `src/index.ts` update: a validation error on the
supplied fields, or the runtime failure of `unmarshall(result.Attributes!)`
when the response has no `Attributes` (the `!` only silences the type
checker). -/
inductive UpdateFailure where
  | validation (e : ValidationError)
  | missingAttributes

/-- The update validation loop of `src/index.ts`: validate each supplied
field that the schema declares and whose value is not `undefined`. -/
def validateUpdates (updates : Record) (schema : Schema) : Except ValidationError Unit :=
  match updates with
  | [] => .ok ()
  | (k, v) :: rest =>
      let step : Except ValidationError Unit :=
        match schemaGet schema k, v with
        | some _, .vUndefined => .ok ()
        | some fd, w => validateField (some w) fd k
        | none, _ => .ok ()
      match step with
      | .error e => .error e
      | .ok _ => validateUpdates rest schema

/-- `DynamoORM.update` of `src/index.ts`: validate the supplied fields,
build the key from the configured key names, build assignment aliases,
issue the request, then unmarshal `Attributes!` — failing when the store
returned no post-update image — and return the inbound-transcoded image. -/
def IndexTs.update (schema : Schema) (config : TableConfig) (partitionKeyValue sortKeyValue : Value)
    (updates : Record) (respAttributes : Option Record) :
    Except UpdateFailure (UpdateItemCommand × Record) :=
  match validateUpdates updates schema with
  | .error e => .error (.validation e)
  | .ok _ =>
      let key : Record :=
        (config.partitionKey, partitionKeyValue) ::
          (match config.sortKey with
           | some sk => [(sk, sortKeyValue)]
           | none => [])
      let r := updateAliasParts updates
      let cmd : UpdateItemCommand :=
        { tableName := config.tableName
          key := key
          updateExpression := "SET " ++ String.intercalate ", " r.1
          attributeNames := r.2.1
          attributeValues := preprocessRecord r.2.2 }
      match respAttributes with
      | none => .error .missingAttributes
      | some m => .ok (cmd, IndexTs.postObj schema m)

/-! ### FieldDef helpers (`src/utils/field-helpers.ts`) -/

/-- Options accepted by the field helpers (everything but the kind tags;
the source spreads them over the tagged literal). -/
structure FieldOpts where
  required : Bool := false
  default : Option DefaultVal := none
  validate : Option (Value → VResult) := none
  minLength : Option Nat := none
  maxLength : Option Nat := none
  pattern : Option (String → Bool) := none
  min : Option Int := none
  max : Option Int := none
  integer : Bool := false

/-- Spread of the options over a kind tag, as each helper performs. -/
def mkField (t : FieldType) (it : Option SetItemKind) (o : FieldOpts) : FieldDef :=
  { type := t
    required := o.required
    default := o.default
    validate := o.validate
    minLength := o.minLength
    maxLength := o.maxLength
    pattern := o.pattern
    min := o.min
    max := o.max
    integer := o.integer
    itemType := it }

def field.string (o : FieldOpts := {}) : FieldDef := mkField .stringT none o

def field.number (o : FieldOpts := {}) : FieldDef := mkField .numberT none o

def field.boolean (o : FieldOpts := {}) : FieldDef := mkField .booleanT none o

def field.date (o : FieldOpts := {}) : FieldDef := mkField .dateT none o

def field.array (o : FieldOpts := {}) : FieldDef := mkField .arrayT none o

def field.object (o : FieldOpts := {}) : FieldDef := mkField .objectT none o

def field.stringSet (o : FieldOpts := {}) : FieldDef := mkField .setT (some .stringKind) o

def field.numberSet (o : FieldOpts := {}) : FieldDef := mkField .setT (some .numberKind) o

/-! ### Concrete inputs used by the witness theorems -/

/-- Deterministic stand-in for a generator capturing ambient state. -/
def demoClock : Nat → Value := fun _ => Value.vDate "2024-01-01T00:00:00.000Z"

/-- A user schema exercising every field kind the claims need. -/
def userSchema : Schema :=
  [("id", field.string { required := true }),
   ("name", field.string { required := true, minLength := some 2, maxLength := some 100 }),
   ("age", field.number {}),
   ("isActive", field.boolean {}),
   ("createdAt", field.date { default := some (.gen demoClock) }),
   ("tags", field.stringSet {})]

/-- A schema with a required field that also carries a literal default. -/
def statusSchema : Schema :=
  [("status", { type := .stringT, required := true, default := some (.lit (Value.vStr "new")) })]

def demoConfig : TableConfig :=
  { tableName := "Users", partitionKey := "id" }

/-- A record compatible with `userSchema`, with a set and a date at top level. -/
def demoRecord : Record :=
  [("id", Value.vStr "1"),
   ("name", Value.vStr "Jo"),
   ("age", Value.vNum 30),
   ("isActive", Value.vBool true),
   ("createdAt", Value.vDate "2024-01-01T00:00:00.000Z"),
   ("tags", Value.vSet [Value.vStr "a", Value.vStr "b"])]

def demoCondGt : WhereCondition :=
  { field := "age", operator := .gt, value := .vNum 18 }

def demoCondBetween : WhereCondition :=
  { field := "score", operator := .between, value := .vNum 1, value2 := .vNum 5 }

def demoCondIn : WhereCondition :=
  { field := "tag", operator := .inOp, value := .vArr [.vStr "a", .vStr "b", .vStr "c"] }

def demoCondInScalar : WhereCondition :=
  { field := "tag", operator := .inOp, value := .vStr "x" }

def demoConds : List WhereCondition :=
  [demoCondGt, demoCondBetween, demoCondIn]

/-- A string field with every string constraint configured. -/
def demoStrField : FieldDef :=
  field.string { minLength := some 2, maxLength := some 4, pattern := some (fun s => decide (s = "abc")) }

/-- A string field whose configured `maxLength` is 0 — falsy in
JavaScript, so the source skips the length check entirely. -/
def demoStrFieldMaxZero : FieldDef :=
  field.string { maxLength := some 0 }

/-! ### Theorems

Infrastructure about the decimal rendering used by alias keys. -/

theorem digitChar_injOn_lt : ∀ d, d < 10 → ∀ e, e < 10 → Nat.digitChar d = Nat.digitChar e → d = e := by
  decide

theorem digitChar_isDigit : ∀ d, d < 10 → (Nat.digitChar d).isDigit = true := by
  decide

theorem map_digitChar_inj : ∀ (l1 l2 : List Nat), (∀ x ∈ l1, x < 10) → (∀ x ∈ l2, x < 10) →
    l1.map Nat.digitChar = l2.map Nat.digitChar → l1 = l2
  | [], [], _, _, _ => rfl
  | [], _ :: _, _, _, h => by simp at h
  | _ :: _, [], _, _, h => by simp at h
  | a :: l1, b :: l2, h1, h2, h => by
      simp only [List.map_cons, List.cons.injEq] at h
      have hab := digitChar_injOn_lt a (h1 a (by simp)) b (h2 b (by simp)) h.1
      have htl := map_digitChar_inj l1 l2 (fun x hx => h1 x (by simp [hx])) (fun x hx => h2 x (by simp [hx])) h.2
      rw [hab, htl]

theorem natChars_all_digit (n : Nat) : ∀ c ∈ natChars n, c.isDigit = true := by
  intro c hc
  unfold natChars at hc
  by_cases h : n = 0
  · simp [h] at hc
    rw [hc]; decide
  · simp only [h, if_false, List.mem_map, List.mem_reverse] at hc
    obtain ⟨d, hd, rfl⟩ := hc
    exact digitChar_isDigit d (Nat.digits_lt_base (by norm_num) hd)

theorem natChars_injective {a b : Nat} (h : natChars a = natChars b) : a = b := by
  unfold natChars at h
  by_cases ha : a = 0 <;> by_cases hb : b = 0
  · rw [ha, hb]
  · exfalso
    simp only [ha, if_true, hb, if_false] at h
    have hlen := congrArg List.length h
    simp at hlen
    obtain ⟨d, hd⟩ : ∃ d, Nat.digits 10 b = [d] := by
      cases hdig : Nat.digits 10 b with
      | nil => rw [hdig] at hlen; simp at hlen
      | cons x xs =>
          rw [hdig] at hlen
          simp at hlen
          exact ⟨x, by rw [hlen]⟩
    rw [hd] at h
    simp at h
    have hd10 : d < 10 := Nat.digits_lt_base (by norm_num) (by rw [hd]; simp)
    have : d = 0 := by
      have h0 : Nat.digitChar d = Nat.digitChar 0 := by
        rw [← h]; decide
      exact digitChar_injOn_lt d hd10 0 (by norm_num) h0
    rw [this] at hd
    have := Nat.ofDigits_digits 10 b
    rw [hd] at this
    simp [Nat.ofDigits] at this
    exact hb this.symm
  · exfalso
    simp only [ha, if_false, hb, if_true] at h
    have hlen := congrArg List.length h
    simp at hlen
    obtain ⟨d, hd⟩ : ∃ d, Nat.digits 10 a = [d] := by
      cases hdig : Nat.digits 10 a with
      | nil => rw [hdig] at hlen; simp at hlen
      | cons x xs =>
          rw [hdig] at hlen
          simp at hlen
          exact ⟨x, by rw [hlen]⟩
    rw [hd] at h
    simp at h
    have hd10 : d < 10 := Nat.digits_lt_base (by norm_num) (by rw [hd]; simp)
    have : d = 0 := by
      have h0 : Nat.digitChar d = Nat.digitChar 0 := by
        rw [h]; decide
      exact digitChar_injOn_lt d hd10 0 (by norm_num) h0
    rw [this] at hd
    have := Nat.ofDigits_digits 10 a
    rw [hd] at this
    simp [Nat.ofDigits] at this
    exact ha this.symm
  · simp only [ha, if_false, hb, if_false] at h
    have := map_digitChar_inj _ _
      (fun x hx => Nat.digits_lt_base (by norm_num) (List.mem_reverse.mp hx))
      (fun x hx => Nat.digits_lt_base (by norm_num) (List.mem_reverse.mp hx)) h
    have := List.reverse_injective this
    exact Nat.digits.injective 10 this

theorem natStr_injective {a b : Nat} (h : natStr a = natStr b) : a = b := by
  unfold natStr at h
  injection h with h
  exact natChars_injective h

theorem natChars_append_sep {a b : Nat} {s t : List Char}
    (hs : s = [] ∨ ∃ u, s = Char.ofNat 95 :: u) (ht : t = [] ∨ ∃ u, t = Char.ofNat 95 :: u)
    (h : natChars a ++ s = natChars b ++ t) : a = b ∧ s = t := by
  rcases List.append_eq_append_iff.mp h with ⟨w, hw1, hw2⟩ | ⟨w, hw1, hw2⟩
  · cases w with
    | nil =>
        simp only [List.append_nil] at hw1 hw2
        exact ⟨natChars_injective hw1.symm, hw2⟩
    | cons x w2 =>
        exfalso
        have hx : x.isDigit = true := by
          apply natChars_all_digit b
          rw [hw1]
          simp
        rcases hs with hnil | ⟨u, hu⟩
        · rw [hnil] at hw2
          simp at hw2
        · rw [hu, List.cons_append] at hw2
          have hx95 : Char.ofNat 95 = x := (List.cons.injEq _ _ _ _).mp hw2 |>.1
          rw [← hx95] at hx
          exact absurd hx (by decide)
  · cases w with
    | nil =>
        simp only [List.append_nil] at hw1 hw2
        exact ⟨natChars_injective hw1, hw2.symm⟩
    | cons x w2 =>
        exfalso
        have hx : x.isDigit = true := by
          apply natChars_all_digit a
          rw [hw1]
          simp
        rcases ht with hnil | ⟨u, hu⟩
        · rw [hnil] at hw2
          simp at hw2
        · rw [hu, List.cons_append] at hw2
          have hx95 : Char.ofNat 95 = x := (List.cons.injEq _ _ _ _).mp hw2 |>.1
          rw [← hx95] at hx
          exact absurd hx (by decide)

theorem keyWithSuffix_inj {p : String} {a b : Nat} {s t : String}
    (hs : s.data = [] ∨ ∃ u, s.data = Char.ofNat 95 :: u)
    (ht : t.data = [] ∨ ∃ u, t.data = Char.ofNat 95 :: u)
    (h : p ++ natStr a ++ s = p ++ natStr b ++ t) : a = b ∧ s = t := by
  have hd : p.data ++ (natChars a ++ s.data) = p.data ++ (natChars b ++ t.data) := by
    have h2 := congrArg String.data h
    simpa [String.data_append, natStr, List.append_assoc] using h2
  have hcan := List.append_cancel_left hd
  have hres := natChars_append_sep hs ht hcan
  refine ⟨hres.1, ?_⟩
  cases s
  cases t
  exact congrArg String.mk hres.2

theorem natStr_key_inj (p : String) {a b : Nat} (h : p ++ natStr a = p ++ natStr b) : a = b := by
  have h2 : p ++ natStr a ++ "" = p ++ natStr b ++ "" := by
    rw [String.append_empty, String.append_empty, h]
  exact (keyWithSuffix_inj (Or.inl rfl) (Or.inl rfl) h2).1

theorem condValuePairs_key_shape (i : Nat) (c : WhereCondition) :
    ∀ kv ∈ condValuePairs i c, ∃ s : String,
      kv.1 = ":value" ++ natStr i ++ s ∧
      (s.data = [] ∨ ∃ u, s.data = Char.ofNat 95 :: u) := by
  intro kv hkv
  rcases c with ⟨f, op, v, v2⟩
  cases op <;> simp only [condValuePairs, List.mem_cons, List.mem_singleton, List.mem_map] at hkv
  case between =>
    rcases hkv with h1 | h1 | h1
    · exact ⟨"", by rw [h1, String.append_empty], Or.inl rfl⟩
    · exact ⟨"_2", by rw [h1], Or.inr ⟨[Char.ofNat 50], rfl⟩⟩
    · cases h1
  case inOp =>
    obtain ⟨⟨k2, val⟩, hmem2, rfl⟩ := hkv
    exact ⟨"_" ++ natStr k2,
      by rw [String.append_assoc (":value" ++ natStr i)],
      Or.inr ⟨(natStr k2).data, by rw [String.data_append]; rfl⟩⟩
  all_goals
    rcases hkv with h1 | h1
    case _ =>
      rw [h1]
      exact ⟨"", by rw [String.append_empty], Or.inl rfl⟩
    case _ => exact absurd h1 (List.not_mem_nil _)

theorem condValuePairs_keys_disjoint {i j : Nat} (hne : i ≠ j) (ci cj : WhereCondition) :
    ∀ k ∈ (condValuePairs i ci).map Prod.fst, k ∉ (condValuePairs j cj).map Prod.fst := by
  intro k hk hk2
  simp only [List.mem_map] at hk hk2
  obtain ⟨kv1, h1, rfl⟩ := hk
  obtain ⟨kv2, h2, heq⟩ := hk2
  obtain ⟨s, hs1, hs2⟩ := condValuePairs_key_shape i ci kv1 h1
  obtain ⟨t, ht1, ht2⟩ := condValuePairs_key_shape j cj kv2 h2
  rw [hs1] at heq
  rw [ht1] at heq
  exact hne ((keyWithSuffix_inj ht2 hs2 heq).1.symm)

theorem condValuePairs_keys_nodup (i : Nat) (c : WhereCondition) :
    ((condValuePairs i c).map Prod.fst).Nodup := by
  rcases c with ⟨f, op, v, v2⟩
  cases op <;> simp only [condValuePairs, List.map_cons, List.map_nil]
  case between =>
    refine List.nodup_cons.mpr ⟨?_, List.nodup_singleton _⟩
    intro hmem
    simp only [List.mem_singleton] at hmem
    have h2 : ":value" ++ natStr i ++ "" = ":value" ++ natStr i ++ "_2" := by
      rw [String.append_empty]
      exact hmem
    have h3 := (@keyWithSuffix_inj ":value" i i "" "_2" (Or.inl rfl)
      (Or.inr ⟨[Char.ofNat 50], rfl⟩) h2).2
    have hdata := congrArg String.data h3
    simp at hdata
  case inOp =>
    have key : ∀ l0 : List Value,
        ((l0.enum.map (fun p : Nat × Value =>
          (":value" ++ natStr i ++ "_" ++ natStr p.1, p.2))).map Prod.fst).Nodup := by
      intro l0
      have hmaps :
          ((l0.enum.map (fun p : Nat × Value =>
            (":value" ++ natStr i ++ "_" ++ natStr p.1, p.2))).map Prod.fst)
          = (List.range l0.length).map (fun k => ":value" ++ natStr i ++ "_" ++ natStr k) := by
        rw [← List.enum_map_fst l0, List.map_map, List.map_map]
        rfl
      rw [hmaps]
      apply List.Nodup.map
      · intro a b hab
        exact natStr_key_inj (":value" ++ natStr i ++ "_") hab
      · exact List.nodup_range _
    exact key (match v with
      | .vArr l => l
      | w => [w])
  all_goals exact List.nodup_singleton _

theorem buildConditionParts_names (i : Nat) (conds : List WhereCondition) :
    (buildConditionParts i conds).2.1
      = (conds.enumFrom i).map (fun p => ("#field" ++ natStr p.1, p.2.field)) := by
  induction conds generalizing i with
  | nil => rfl
  | cons c rest ih => simp [buildConditionParts, List.enumFrom, ih]

theorem buildConditionParts_values (i : Nat) (conds : List WhereCondition) :
    (buildConditionParts i conds).2.2
      = (conds.enumFrom i).flatMap (fun p => condValuePairs p.1 p.2) := by
  induction conds generalizing i with
  | nil => rfl
  | cons c rest ih => simp [buildConditionParts, List.enumFrom, ih]

/-- C4: for every predicate list, `buildConditionExpression` allocates the
name and value alias identifiers injectively on position: the name table
and value table decompose positionally (the keys contributed at position
`i` are `#field{i}` and the `condValuePairs` keys), the name keys of two
distinct positions differ, and no value-alias key (including the suffixed
keys of `between` and `in`) is shared between two distinct positions.
This holds for all list lengths, in particular up to 50 entries. -/
theorem c4_condition_alias_injective (conds : List WhereCondition) (i j : Nat)
    (ci cj : WhereCondition) (hne : i ≠ j) :
    (buildConditionExpression conds).attributeNames
      = conds.enum.map (fun p => ("#field" ++ natStr p.1, p.2.field)) ∧
    (buildConditionExpression conds).attributeValues
      = conds.enum.flatMap (fun p => condValuePairs p.1 p.2) ∧
    "#field" ++ natStr i ≠ "#field" ++ natStr j ∧
    ∀ k ∈ (condValuePairs i ci).map Prod.fst, k ∉ (condValuePairs j cj).map Prod.fst := by
  refine ⟨?_, ?_, ?_, condValuePairs_keys_disjoint hne ci cj⟩
  · exact buildConditionParts_names 0 conds
  · exact buildConditionParts_values 0 conds
  · intro h
    exact hne (natStr_key_inj "#field" h)

/-- Witness for C4 at a concrete predicate list: positions 1 (a `between`
predicate) and 2 (an `in` predicate) collide on no alias key. -/
theorem c4_condition_alias_injective_witness :
    "#field" ++ natStr 1 ≠ "#field" ++ natStr 2 ∧
    ∀ k ∈ (condValuePairs 1 demoCondBetween).map Prod.fst,
      k ∉ (condValuePairs 2 demoCondIn).map Prod.fst :=
  (c4_condition_alias_injective demoConds 1 2 demoCondBetween demoCondIn (by decide)).2.2

/-- C5: a `between` predicate at position `i` contributes exactly 2 value
aliases; an `in` predicate contributes exactly one alias per element of its
value list, and exactly 1 when its value is not a list (singleton
wrapping); the contributed keys are distinct, and the value table of
`buildConditionExpression` is exactly the positional concatenation of
these contributions. -/
theorem c5_value_alias_counts (conds : List WhereCondition) (i : Nat)
    (c : WhereCondition) (l : List Value) :
    (buildConditionExpression conds).attributeValues
      = conds.enum.flatMap (fun p => condValuePairs p.1 p.2) ∧
    (c.operator = .between → (condValuePairs i c).length = 2) ∧
    (c.operator = .inOp → c.value = .vArr l → (condValuePairs i c).length = l.length) ∧
    (c.operator = .inOp → isArrB c.value = false → (condValuePairs i c).length = 1) ∧
    ((condValuePairs i c).map Prod.fst).Nodup := by
  refine ⟨buildConditionParts_values 0 conds, ?_, ?_, ?_, condValuePairs_keys_nodup i c⟩
  · intro hop
    rcases c with ⟨f, op, v, v2⟩
    simp only at hop
    subst hop
    simp [condValuePairs]
  · intro hop hval
    rcases c with ⟨f, op, v, v2⟩
    simp only at hop hval
    subst hop
    subst hval
    simp [condValuePairs]
  · intro hop hval
    rcases c with ⟨f, op, v, v2⟩
    simp only at hop hval
    subst hop
    cases v <;> simp [condValuePairs] <;> simp [isArrB] at hval

/-- Witness for C5: the concrete `between`, list-valued `in` and
scalar-valued `in` predicates contribute 2, 3 and 1 value aliases. -/
theorem c5_value_alias_counts_witness :
    (condValuePairs 1 demoCondBetween).length = 2 ∧
    (condValuePairs 2 demoCondIn).length = 3 ∧
    (condValuePairs 0 demoCondInScalar).length = 1 :=
  ⟨(c5_value_alias_counts demoConds 1 demoCondBetween []).2.1 rfl,
   (c5_value_alias_counts demoConds 2 demoCondIn
      [.vStr "a", .vStr "b", .vStr "c"]).2.2.1 rfl rfl,
   (c5_value_alias_counts demoConds 0 demoCondInScalar []).2.2.2.1 rfl rfl⟩

theorem validateField_required_error (value : Option Value) (fd : FieldDef) (name : String)
    (hreq : fd.required = true) (hnull : isNullish value = true) :
    validateField value fd name
      = .error ⟨"Field \x27" ++ name ++ "\x27 is required", none⟩ := by
  unfold validateField
  rw [hreq, hnull]
  rfl

theorem validateSchema_error_of_field_error (data : Record) (schema : Schema)
    (f : String) (fd : FieldDef) (hmem : (f, fd) ∈ schema)
    (e : ValidationError) (hf : validateField (recordGet data f) fd f = .error e) :
    ∃ e2, validateSchema data schema = .error e2 := by
  induction schema with
  | nil => cases hmem
  | cons hd rest ih =>
      rcases hd with ⟨name, fd2⟩
      cases hcase : validateField (recordGet data name) fd2 name with
      | error e2 => exact ⟨e2, by simp [validateSchema, hcase]⟩
      | ok _ =>
          rcases List.mem_cons.mp hmem with heq | htl
          · exfalso
            have h1 : name = f := (congrArg Prod.fst heq).symm
            have h2 : fd2 = fd := (congrArg Prod.snd heq).symm
            rw [h1, h2, hf] at hcase
            cases hcase
          · obtain ⟨e2, he2⟩ := ih htl
            exact ⟨e2, by simp [validateSchema, hcase, he2]⟩

/-- C2: `validateSchema` raises a `ValidationError` whenever some field
marked required is absent or null in the record, and the required-field
error produced for that field carries a message stating the reason and
containing the field name (the structured `field` property is left unset
by every source call site, so "names the field" is witnessed by the
message text). -/
theorem c2_required_field_raises (schema : Schema) (r : Record) (f : String) (fd : FieldDef)
    (hmem : (f, fd) ∈ schema) (hreq : fd.required = true)
    (hnull : isNullish (recordGet r f) = true) :
    (∃ e, validateSchema r schema = .error e) ∧
    validateField (recordGet r f) fd f
      = .error ⟨"Field \x27" ++ f ++ "\x27 is required", none⟩ ∧
    ∃ pre post, "Field \x27" ++ f ++ "\x27 is required" = pre ++ f ++ post := by
  have hf := validateField_required_error (recordGet r f) fd f hreq hnull
  exact ⟨validateSchema_error_of_field_error r schema f fd hmem _ hf, hf,
    ⟨"Field \x27", "\x27 is required", rfl⟩⟩

/-- Witness for C2: the empty record misses the required `id` of
`userSchema`; validation fails and the error message names `id`. -/
theorem c2_required_field_raises_witness :
    (∃ e, validateSchema [] userSchema = .error e) ∧
    validateField (recordGet [] "id") (field.string { required := true }) "id"
      = .error ⟨"Field \x27" ++ "id" ++ "\x27 is required", none⟩ ∧
    ∃ pre post, "Field \x27" ++ "id" ++ "\x27 is required" = pre ++ "id" ++ post :=
  c2_required_field_raises userSchema [] "id" (field.string { required := true })
    (by simp [userSchema]) rfl rfl

theorem stringMinCheck_pass (fd : FieldDef) (name s : String)
    (h : strMinViolationB fd s = false) :
    stringMinCheck fd name s = stringMaxCheck fd name s := by
  unfold stringMinCheck
  unfold strMinViolationB at h
  cases hm : fd.minLength with
  | none => rfl
  | some m =>
      rw [hm] at h
      have h2 : (decide (m ≠ 0) && decide (s.length < m)) = false := h
      simp only [h2, Bool.false_eq_true, if_false]

theorem stringMaxCheck_pass (fd : FieldDef) (name s : String)
    (h : strMaxViolationB fd s = false) :
    stringMaxCheck fd name s = stringPatternCheck fd name s := by
  unfold stringMaxCheck
  unfold strMaxViolationB at h
  cases hm : fd.maxLength with
  | none => rfl
  | some m =>
      rw [hm] at h
      have h2 : (decide (m ≠ 0) && decide (s.length > m)) = false := h
      simp only [h2, Bool.false_eq_true, if_false]

theorem validateField_vStr (fd : FieldDef) (name s : String) (ht : fd.type = .stringT)
    (e : ValidationError) (hmin : stringMinCheck fd name s = .error e) :
    validateField (some (.vStr s)) fd name = .error e := by
  unfold validateField
  simp only [isNullish, Bool.and_false, Bool.false_eq_true, if_false]
  unfold typeCheck
  rw [ht]
  simp only [hmin]

/-- C8 counterexample: the claim as stated is false for a configured
`maxLength` of 0: JavaScript truthiness (`stringField.maxLength && ...`)
skips the check, so a one-character value — longer than the bound — passes
validation instead of failing with the "at most" message. -/
theorem c8_counterexample_maxLength_zero_skipped :
    ("a" : String).length > 0 ∧
    validateField (some (.vStr "a")) demoStrFieldMaxZero "name" = .ok () :=
  ⟨by decide, rfl⟩

/-- C8 (amended): for a string-kind field the constraint checks run in the
order `minLength`, then `maxLength`, then `pattern`, and each failure
carries its documented message: a too-short value fails with the
"at least" message regardless of the other constraints, a value longer
than a configured *nonzero* `maxLength` fails with the "at most" message
once `minLength` passes (a configured `maxLength` of 0 is falsy in
JavaScript and the check is skipped), and a non-matching value fails with
the pattern message once both length checks pass.  The `m ≠ 0` side of
the `minLength` hypothesis is vacuous — no value is shorter than 0. -/
theorem c8_string_check_order (fd : FieldDef) (name s : String) (ht : fd.type = .stringT) :
    (∀ m, fd.minLength = some m → (m ≠ 0 && s.length < m) = true →
       validateField (some (.vStr s)) fd name
         = .error ⟨"Field \x27" ++ name ++ "\x27 must be at least " ++ toString m ++ " characters", none⟩) ∧
    (strMinViolationB fd s = false →
      ∀ m, fd.maxLength = some m → (m ≠ 0 && s.length > m) = true →
       validateField (some (.vStr s)) fd name
         = .error ⟨"Field \x27" ++ name ++ "\x27 must be at most " ++ toString m ++ " characters", none⟩) ∧
    (strMinViolationB fd s = false → strMaxViolationB fd s = false →
      ∀ p, fd.pattern = some p → p s = false →
       validateField (some (.vStr s)) fd name
         = .error ⟨"Field \x27" ++ name ++ "\x27 does not match required pattern", none⟩) := by
  refine ⟨?_, ?_, ?_⟩
  · intro m hm hviol
    apply validateField_vStr fd name s ht
    unfold stringMinCheck
    rw [hm]
    simp only [hviol]
    simp
  · intro hminpass m hm hviol
    apply validateField_vStr fd name s ht
    rw [stringMinCheck_pass fd name s hminpass]
    unfold stringMaxCheck
    rw [hm]
    simp only [hviol]
    simp
  · intro hminpass hmaxpass p hp hviol
    apply validateField_vStr fd name s ht
    rw [stringMinCheck_pass fd name s hminpass, stringMaxCheck_pass fd name s hmaxpass]
    unfold stringPatternCheck
    rw [hp]
    simp only [hviol]
    simp

/-- Witness for C8 on the concrete field with `minLength 2`, `maxLength 4`
and a pattern matching only `"abc"`: each constraint fires with its
message. -/
theorem c8_string_check_order_witness :
    validateField (some (.vStr "J")) demoStrField "name"
      = .error ⟨"Field \x27" ++ "name" ++ "\x27 must be at least " ++ toString 2 ++ " characters", none⟩ ∧
    validateField (some (.vStr "abcde")) demoStrField "name"
      = .error ⟨"Field \x27" ++ "name" ++ "\x27 must be at most " ++ toString 4 ++ " characters", none⟩ ∧
    validateField (some (.vStr "abd")) demoStrField "name"
      = .error ⟨"Field \x27" ++ "name" ++ "\x27 does not match required pattern", none⟩ :=
  ⟨(c8_string_check_order demoStrField "name" "J" rfl).1 2 rfl (by decide),
   (c8_string_check_order demoStrField "name" "abcde" rfl).2.1 rfl 4 rfl (by decide),
   (c8_string_check_order demoStrField "name" "abd" rfl).2.2 rfl rfl
     (fun s => decide (s = "abc")) rfl (by decide)⟩

/-- C3: when validation of the default-filled item fails, `create` (the
`src/orm.ts` variant and the `src/index.ts` variant alike) surfaces the
`ValidationError` and hands no request descriptor to the transport:
`client.send` is never invoked. -/
theorem c3_create_no_request_on_validation_error (schema : Schema) (config : TableConfig)
    (item : Record) (c : Nat) (e : ValidationError)
    (h : validateSchema (applyDefaults schema item c).item schema = .error e) :
    (OrmTs.create schema config item c).result = .error e ∧
    (OrmTs.create schema config item c).requests = [] ∧
    (IndexTs.create schema config item c).result = .error e ∧
    (IndexTs.create schema config item c).requests = [] := by
  refine ⟨?_, ?_, ?_, ?_⟩ <;> simp [OrmTs.create, IndexTs.create, h]

/-- Witness for C3: creating from the empty record fails on the required
`id` and no put request descriptor is produced. -/
theorem c3_create_no_request_on_validation_error_witness :
    validateSchema (applyDefaults userSchema [] 0).item userSchema
      = .error ⟨"Field \x27" ++ "id" ++ "\x27 is required", none⟩ ∧
    (OrmTs.create userSchema demoConfig [] 0).requests = [] ∧
    (IndexTs.create userSchema demoConfig [] 0).requests = [] := by
  have h : validateSchema (applyDefaults userSchema [] 0).item userSchema
      = .error ⟨"Field \x27" ++ "id" ++ "\x27 is required", none⟩ := rfl
  have h2 := c3_create_no_request_on_validation_error userSchema demoConfig [] 0 _ h
  exact ⟨h, h2.2.1, h2.2.2.2⟩

theorem recordGet_recordSet_ne (r : Record) (k k2 : String) (v : Value) (h : ¬k = k2) :
    recordGet (recordSet r k v) k2 = recordGet r k2 := by
  induction r with
  | nil => simp [recordSet, recordGet, h]
  | cons hd rest ih =>
      rcases hd with ⟨k3, v3⟩
      by_cases h3 : k3 = k
      · subst h3
        simp [recordSet, recordGet, h]
      · simp [recordSet, recordGet, h3, ih]

theorem applyDefaults_preserves_defined (schema : Schema) :
    ∀ (item : Record) (c : Nat) (f : String), isUndef (recordGet item f) = false →
    recordGet (applyDefaults schema item c).item f = recordGet item f := by
  induction schema with
  | nil => intro item c f _; rfl
  | cons hd rest ih =>
      intro item c f h
      rcases hd with ⟨name, fd⟩
      by_cases hnf : name = f
      · subst hnf
        cases hu : isUndef (recordGet item name) with
        | true => rw [hu] at h; cases h
        | false => simp only [applyDefaults, hu, Bool.false_eq_true, if_false]; exact ih item c name h
      · cases hu : isUndef (recordGet item name) with
        | false => simp only [applyDefaults, hu, Bool.false_eq_true, if_false]; exact ih item c f h
        | true =>
            cases hd2 : fd.default with
            | none => simp only [applyDefaults, hu, if_true, hd2]; exact ih item c f h
            | some dv =>
                cases dv with
                | lit v =>
                    simp only [applyDefaults, hu, if_true, hd2]
                    rw [ih (recordSet item name v) c f
                      (by rw [recordGet_recordSet_ne item name f v hnf]; exact h),
                      recordGet_recordSet_ne item name f v hnf]
                | gen g =>
                    simp only [applyDefaults, hu, if_true, hd2]
                    rw [ih (recordSet item name (g c)) (c + 1) f
                      (by rw [recordGet_recordSet_ne item name f (g c) hnf]; exact h),
                      recordGet_recordSet_ne item name f (g c) hnf]

/-- C10: a field explicitly set to `null` is not `undefined`, so the
default-filling step leaves the `null` in place (no substitution), and a
required field that is `null` fails validation with the required-field
error naming the field; `create` fails and no request is issued. -/
theorem c10_null_does_not_default (schema : Schema) (config : TableConfig)
    (item : Record) (c : Nat) (f : String) (fd : FieldDef)
    (hmem : (f, fd) ∈ schema) (hreq : fd.required = true)
    (hnull : recordGet item f = some .vNull) :
    recordGet (applyDefaults schema item c).item f = some .vNull ∧
    validateField (some .vNull) fd f
      = .error ⟨"Field \x27" ++ f ++ "\x27 is required", none⟩ ∧
    (∃ e, (OrmTs.create schema config item c).result = .error e) ∧
    (OrmTs.create schema config item c).requests = [] := by
  have hpres : recordGet (applyDefaults schema item c).item f = some .vNull := by
    rw [applyDefaults_preserves_defined schema item c f (by rw [hnull]; rfl)]
    exact hnull
  have hvf := validateField_required_error (some .vNull) fd f hreq rfl
  have hvs : ∃ e, validateSchema (applyDefaults schema item c).item schema = .error e := by
    apply validateSchema_error_of_field_error _ _ f fd hmem
    rw [hpres]
    exact validateField_required_error (some .vNull) fd f hreq rfl
  obtain ⟨e, he⟩ := hvs
  exact ⟨hpres, hvf, ⟨e, by simp [OrmTs.create, he]⟩, by simp [OrmTs.create, he]⟩

/-- Witness for C10: `status` is required with a literal default; creating
with `status: null` keeps the `null`, raises, and sends nothing. -/
theorem c10_null_does_not_default_witness :
    recordGet (applyDefaults statusSchema [("status", Value.vNull)] 0).item "status"
      = some .vNull ∧
    validateField (some .vNull)
      { type := .stringT, required := true, default := some (.lit (Value.vStr "new")) } "status"
      = .error ⟨"Field \x27" ++ "status" ++ "\x27 is required", none⟩ ∧
    (∃ e, (OrmTs.create statusSchema demoConfig [("status", Value.vNull)] 0).result = .error e) ∧
    (OrmTs.create statusSchema demoConfig [("status", Value.vNull)] 0).requests = [] :=
  c10_null_does_not_default statusSchema demoConfig [("status", Value.vNull)] 0 "status"
    { type := .stringT, required := true, default := some (.lit (Value.vStr "new")) }
    (by simp [statusSchema]) rfl rfl

theorem applyDefaults_trace_subset (schema : Schema) :
    ∀ (item : Record) (c : Nat) (x : String),
      x ∈ (applyDefaults schema item c).trace → x ∈ schema.map Prod.fst := by
  induction schema with
  | nil => intro item c x hx; cases hx
  | cons hd rest ih =>
      intro item c x hx
      rcases hd with ⟨name, fd⟩
      cases hu : isUndef (recordGet item name) with
      | false =>
          simp only [applyDefaults, hu, Bool.false_eq_true, if_false] at hx
          exact List.mem_cons_of_mem _ (ih item c x hx)
      | true =>
          cases hd2 : fd.default with
          | none =>
              simp only [applyDefaults, hu, if_true, hd2] at hx
              exact List.mem_cons_of_mem _ (ih item c x hx)
          | some dv =>
              cases dv with
              | lit v =>
                  simp only [applyDefaults, hu, if_true, hd2] at hx
                  exact List.mem_cons_of_mem _ (ih _ c x hx)
              | gen g =>
                  simp only [applyDefaults, hu, if_true, hd2] at hx
                  rcases List.mem_cons.mp hx with heq | htl
                  · exact heq ▸ List.mem_cons_self _ _
                  · exact List.mem_cons_of_mem _ (ih _ (c + 1) x htl)

theorem applyDefaults_trace_count_zero (schema : Schema) :
    ∀ (item : Record) (c : Nat) (f : String), isUndef (recordGet item f) = false →
      (applyDefaults schema item c).trace.count f = 0 := by
  induction schema with
  | nil => intro item c f _; rfl
  | cons hd rest ih =>
      intro item c f h
      rcases hd with ⟨name, fd⟩
      by_cases hnf : name = f
      · subst hnf
        cases hu : isUndef (recordGet item name) with
        | true => rw [hu] at h; cases h
        | false =>
            simp only [applyDefaults, hu, Bool.false_eq_true, if_false]
            exact ih item c name h
      · have hpres : ∀ v : Value, isUndef (recordGet (recordSet item name v) f) = false := by
          intro v
          rw [recordGet_recordSet_ne item name f v hnf]
          exact h
        cases hu : isUndef (recordGet item name) with
        | false =>
            simp only [applyDefaults, hu, Bool.false_eq_true, if_false]
            exact ih item c f h
        | true =>
            cases hd2 : fd.default with
            | none =>
                simp only [applyDefaults, hu, if_true, hd2]
                exact ih item c f h
            | some dv =>
                cases dv with
                | lit v =>
                    simp only [applyDefaults, hu, if_true, hd2]
                    exact ih _ c f (hpres v)
                | gen g =>
                    simp only [applyDefaults, hu, if_true, hd2]
                    rw [List.count_cons_of_ne (fun hc => hnf hc.symm)]
                    exact ih _ (c + 1) f (hpres (g c))

theorem applyDefaults_trace_count_one (schema : Schema) :
    ∀ (item : Record) (c : Nat) (f : String) (fd : FieldDef) (g : Nat → Value),
      (schema.map Prod.fst).Nodup → (f, fd) ∈ schema →
      fd.default = some (.gen g) → isUndef (recordGet item f) = true →
      (applyDefaults schema item c).trace.count f = 1 := by
  induction schema with
  | nil => intro item c f fd g _ hmem _ _; cases hmem
  | cons hd rest ih =>
      intro item c f fd g hnd hmem hg h
      rcases hd with ⟨name, fd2⟩
      have hnd2 := List.nodup_cons.mp hnd
      by_cases hnf : name = f
      · subst hnf
        have hfd : fd2 = fd := by
          rcases List.mem_cons.mp hmem with heq | htl
          · exact ((congrArg Prod.snd heq).symm : fd2 = fd)
          · exfalso
            exact hnd2.1 (List.mem_map.mpr ⟨(name, fd), htl, rfl⟩)
        subst hfd
        simp only [applyDefaults, h, if_true, hg]
        rw [List.count_cons_self]
        have hz : ∀ x ∈ (applyDefaults rest (recordSet item name (g c)) (c + 1)).trace,
            x ∈ rest.map Prod.fst :=
          fun x hx => applyDefaults_trace_subset rest _ _ x hx
        have : name ∉ (applyDefaults rest (recordSet item name (g c)) (c + 1)).trace :=
          fun hc => hnd2.1 (hz name hc)
        rw [List.count_eq_zero.mpr this]
      · have hmem2 : (f, fd) ∈ rest := by
          rcases List.mem_cons.mp hmem with heq | htl
          · exact absurd ((congrArg Prod.fst heq).symm : name = f) hnf
          · exact htl
        have hpres : ∀ v : Value, isUndef (recordGet (recordSet item name v) f) = true := by
          intro v
          rw [recordGet_recordSet_ne item name f v hnf]
          exact h
        cases hu : isUndef (recordGet item name) with
        | false =>
            simp only [applyDefaults, hu, Bool.false_eq_true, if_false]
            exact ih item c f fd g hnd2.2 hmem2 hg h
        | true =>
            cases hd2 : fd2.default with
            | none =>
                simp only [applyDefaults, hu, if_true, hd2]
                exact ih item c f fd g hnd2.2 hmem2 hg h
            | some dv =>
                cases dv with
                | lit v =>
                    simp only [applyDefaults, hu, if_true, hd2]
                    exact ih _ c f fd g hnd2.2 hmem2 hg (hpres v)
                | gen g2 =>
                    simp only [applyDefaults, hu, if_true, hd2]
                    rw [List.count_cons_of_ne (fun hc => hnf hc.symm)]
                    exact ih _ (c + 1) f fd g hnd2.2 hmem2 hg (hpres (g2 c))

theorem IndexTs.create_trace (schema : Schema) (config : TableConfig) (item : Record) (c : Nat) :
    (IndexTs.create schema config item c).trace = (applyDefaults schema item c).trace := by
  unfold IndexTs.create
  cases h : validateSchema (applyDefaults schema item c).item schema <;> simp [h]

/-- C6: a function-valued default on field `f` is invoked exactly once per
`create` call when `f` is `undefined` in the input, never when `f` is
present, and never at schema-declaration time (the `field` helpers store
the unapplied generator); two consecutive `create` calls omitting `f` each
observe their own invocation (two trace events, at distinct counters). -/
theorem c6_default_generator_once (schema : Schema) (config : TableConfig)
    (item : Record) (f : String) (fd : FieldDef) (g : Nat → Value)
    (hnd : (schema.map Prod.fst).Nodup) (hmem : (f, fd) ∈ schema)
    (hg : fd.default = some (.gen g)) :
    (∀ c, isUndef (recordGet item f) = true →
      (applyDefaults schema item c).trace.count f = 1) ∧
    (∀ c, isUndef (recordGet item f) = false →
      (applyDefaults schema item c).trace.count f = 0) ∧
    (∀ opts : FieldOpts, (field.date opts).default = opts.default) ∧
    (∀ c, isUndef (recordGet item f) = true →
      (IndexTs.create schema config item c).trace.count f
        + (IndexTs.create schema config item
            (IndexTs.create schema config item c).counter).trace.count f = 2) := by
  refine ⟨?_, ?_, fun _ => rfl, ?_⟩
  · intro c h
    exact applyDefaults_trace_count_one schema item c f fd g hnd hmem hg h
  · intro c h
    exact applyDefaults_trace_count_zero schema item c f h
  · intro c h
    rw [IndexTs.create_trace, IndexTs.create_trace,
      applyDefaults_trace_count_one schema item c f fd g hnd hmem hg h,
      applyDefaults_trace_count_one schema item _ f fd g hnd hmem hg h]

/-- Witness for C6: `createdAt` of `userSchema` carries a generator
default; a `create` input without `createdAt` sees one invocation, an
input carrying it sees none, and two consecutive calls see two. -/
theorem c6_default_generator_once_witness :
    (applyDefaults userSchema [("id", Value.vStr "1")] 0).trace.count "createdAt" = 1 ∧
    (applyDefaults userSchema demoRecord 0).trace.count "createdAt" = 0 ∧
    (field.date { default := some (.gen demoClock) }).default = some (.gen demoClock) ∧
    (IndexTs.create userSchema demoConfig [("id", Value.vStr "1")] 0).trace.count "createdAt"
      + (IndexTs.create userSchema demoConfig [("id", Value.vStr "1")]
          (IndexTs.create userSchema demoConfig [("id", Value.vStr "1")] 0).counter).trace.count "createdAt"
      = 2 := by
  have h1 := c6_default_generator_once userSchema demoConfig [("id", Value.vStr "1")]
    "createdAt" (field.date { default := some (.gen demoClock) }) demoClock
    (by decide) (by simp [userSchema]) rfl
  have h2 := c6_default_generator_once userSchema demoConfig demoRecord
    "createdAt" (field.date { default := some (.gen demoClock) }) demoClock
    (by decide) (by simp [userSchema]) rfl
  exact ⟨h1.1 0 rfl, h2.2.1 0 rfl, h1.2.2.1 _, h1.2.2.2 0 rfl⟩

/-- C7 counterexample: the operative `src/orm.ts` update does not fail when
the store response carries no `Attributes`; at this concrete input it
returns normally with the empty record (`unmarshall(Attributes || {})`
substitutes the empty object). -/
theorem c7_counterexample_no_attributes_returns_empty :
    (OrmTs.update userSchema demoConfig [("id", Value.vStr "123")]
      [("name", Value.vStr "Adam")] none).2 = [] := rfl

/-- C7 (amended): `update` returns the store-supplied post-update image
transcoded inbound; on a response without `Attributes` the `src/index.ts`
variant fails (its `unmarshall(Attributes!)` throws), while the
`src/orm.ts` variant substitutes the empty map and returns the transcoded
empty record instead of failing. -/
theorem c7_update_returns_post_image (schema : Schema) (config : TableConfig)
    (key data updates : Record) (pk sk : Value) (m : Record)
    (hval : validateUpdates updates schema = .ok ()) :
    (OrmTs.update schema config key data (some m)).2
      = OrmTs.postprocessFromMarshall schema m ∧
    (OrmTs.update schema config key data none).2
      = OrmTs.postprocessFromMarshall schema [] ∧
    IndexTs.update schema config pk sk updates none = .error .missingAttributes ∧
    (∀ m2, ∃ cmd, IndexTs.update schema config pk sk updates (some m2)
      = .ok (cmd, IndexTs.postObj schema m2)) := by
  refine ⟨rfl, rfl, ?_, ?_⟩
  · simp [IndexTs.update, hval]
  · intro m2
    refine ⟨{ tableName := config.tableName
              key := (config.partitionKey, pk) ::
                (match config.sortKey with
                 | some sk2 => [(sk2, sk)]
                 | none => [])
              updateExpression := "SET " ++ String.intercalate ", " (updateAliasParts updates).1
              attributeNames := (updateAliasParts updates).2.1
              attributeValues := preprocessRecord (updateAliasParts updates).2.2 }, ?_⟩
    simp [IndexTs.update, hval]

/-- Witness for C7 (amended) at concrete inputs: a one-field response is
returned transcoded; the `src/index.ts` update fails on a response without
`Attributes`. -/
theorem c7_update_returns_post_image_witness :
    (OrmTs.update userSchema demoConfig [("id", Value.vStr "123")] [("name", Value.vStr "Adam")]
      (some [("id", Value.vStr "123"), ("name", Value.vStr "Adam")])).2
      = OrmTs.postprocessFromMarshall userSchema [("id", Value.vStr "123"), ("name", Value.vStr "Adam")] ∧
    IndexTs.update userSchema demoConfig (Value.vStr "123") Value.vUndefined
      [("name", Value.vStr "Adam")] none = .error .missingAttributes := by
  have h := c7_update_returns_post_image userSchema demoConfig
    [("id", Value.vStr "123")] [("name", Value.vStr "Adam")] [("name", Value.vStr "Adam")]
    (Value.vStr "123") Value.vUndefined
    [("id", Value.vStr "123"), ("name", Value.vStr "Adam")] rfl
  exact ⟨h.1, h.2.2.1⟩

/-- C9: every put request descriptor the `src/index.ts` `create` produces
carries the condition expression `attribute_not_exists(<partitionKey>)`,
so that `create` never overwrites an existing item under the same
partition key; the descriptor list handed to the transport is exactly that
one conditional put. -/
theorem c9_create_put_condition (schema : Schema) (config : TableConfig)
    (item : Record) (c : Nat) (cmd : PutItemCommand) (ret : Record)
    (h : (IndexTs.create schema config item c).result = .ok (cmd, ret)) :
    cmd.conditionExpression = some ("attribute_not_exists(" ++ config.partitionKey ++ ")") ∧
    (IndexTs.create schema config item c).requests = [cmd] := by
  cases hv : validateSchema (applyDefaults schema item c).item schema with
  | error e =>
      exfalso
      simp [IndexTs.create, hv] at h
  | ok u =>
      simp only [IndexTs.create, hv] at h ⊢
      simp only [Except.ok.injEq, Prod.mk.injEq] at h
      rw [← h.1]
      exact ⟨rfl, rfl⟩

/-- Witness for C9: a successful concrete `create` produces exactly one put
descriptor and it carries `attribute_not_exists(id)`. -/
theorem c9_create_put_condition_witness :
    ({ tableName := "Users"
       item := preprocessRecord (applyDefaults userSchema demoRecord 0).item
       conditionExpression := some ("attribute_not_exists(" ++ "id" ++ ")") }
      : PutItemCommand).conditionExpression
      = some ("attribute_not_exists(" ++ demoConfig.partitionKey ++ ")") ∧
    (IndexTs.create userSchema demoConfig demoRecord 0).requests
      = [{ tableName := "Users"
           item := preprocessRecord (applyDefaults userSchema demoRecord 0).item
           conditionExpression := some ("attribute_not_exists(" ++ "id" ++ ")") }] :=
  c9_create_put_condition userSchema demoConfig demoRecord 0
    { tableName := "Users"
      item := preprocessRecord (applyDefaults userSchema demoRecord 0).item
      conditionExpression := some ("attribute_not_exists(" ++ "id" ++ ")") }
    (applyDefaults userSchema demoRecord 0).item rfl

theorem foldl_addSVZ_distinct : ∀ (l acc : List Value),
    (∀ v ∈ l, acc.all (fun w => !sameValueZero w v) = true) → distinctSVZ l = true →
    l.foldl addSVZ acc = acc ++ l := by
  intro l
  induction l with
  | nil => intro acc _ _; simp
  | cons v vs ih =>
      intro acc hacc hd
      have hsplit : vs.all (fun w => !sameValueZero v w) = true ∧ distinctSVZ vs = true := by
        simpa [distinctSVZ] using hd
      have hnot : acc.any (fun w => sameValueZero w v) = false := by
        have hall := hacc v (List.mem_cons_self v vs)
        simp only [List.all_eq_true, Bool.not_eq_true'] at hall
        cases hany : acc.any (fun w => sameValueZero w v) with
        | false => rfl
        | true =>
            exfalso
            obtain ⟨w, hw, hsvz⟩ := List.any_eq_true.mp hany
            rw [hall w hw] at hsvz
            cases hsvz
  -- one Set.add step keeps first-occurrence order
      have hstep : addSVZ acc v = acc ++ [v] := by
        unfold addSVZ
        rw [hnot]
        simp
      show List.foldl addSVZ (addSVZ acc v) vs = acc ++ v :: vs
      rw [hstep, ih (acc ++ [v]) ?_ hsplit.2]
      · simp
      · intro u hu
        simp only [List.all_append, Bool.and_eq_true]
        refine ⟨hacc u (List.mem_cons_of_mem v hu), ?_⟩
        simp only [List.all_cons, List.all_nil, Bool.and_true]
        have := hsplit.1
        simp only [List.all_eq_true] at this
        exact this u hu

theorem setFromList_distinct (l : List Value) (h : distinctSVZ l = true) :
    setFromList l = l := by
  have := foldl_addSVZ_distinct l [] (by simp) h
  simpa [setFromList] using this

mutual

theorem preprocess_inert (schema : Schema) : ∀ v : Value, inertB schema v = true →
    preprocessForMarshall v = v
  | .vNull, _ => rfl
  | .vUndefined, _ => rfl
  | .vStr _, _ => rfl
  | .vNum _, _ => rfl
  | .vBool _, _ => rfl
  | .vDate _, h => by simp [inertB] at h
  | .vSet _, h => by simp [inertB] at h
  | .vArr l, h => by
      have h2 : inertListB schema l = true := by simpa [inertB] using h
      simp [preprocessForMarshall, preprocessList_inert schema l h2]
  | .vObj kvs, h => by
      have h2 : inertObjB schema kvs = true := by simpa [inertB] using h
      simp [preprocessForMarshall, preprocessObj_inert schema kvs h2]

theorem preprocessList_inert (schema : Schema) : ∀ l : List Value, inertListB schema l = true →
    preprocessList l = l
  | [], _ => rfl
  | v :: vs, h => by
      have h2 : inertB schema v = true ∧ inertListB schema vs = true := by
        simpa [inertListB] using h
      simp [preprocessList, preprocess_inert schema v h2.1, preprocessList_inert schema vs h2.2]

theorem preprocessObj_inert (schema : Schema) : ∀ kvs : List (String × Value),
    inertObjB schema kvs = true → preprocessObj kvs = kvs
  | [], _ => rfl
  | (k, v) :: rest, h => by
      have h2 : inertB schema v = true ∧ inertObjB schema rest = true := by
        have h3 := h
        simp only [inertObjB, Bool.and_eq_true] at h3
        exact ⟨h3.1.2, h3.2⟩
      simp [preprocessObj, preprocess_inert schema v h2.1, preprocessObj_inert schema rest h2.2]

end

theorem indexPostEntry_id (ofd : Option FieldDef) (v : Value)
    (hguard : nestedGuardB ofd v = true) :
    IndexTs.postEntry ofd v v = v := by
  cases ofd with
  | none => cases v <;> simp [IndexTs.postEntry]
  | some fd => cases v <;> simp_all [nestedGuardB, IndexTs.postEntry]

mutual

theorem indexPost_inert (schema : Schema) : ∀ v : Value, inertB schema v = true →
    IndexTs.postprocessFromMarshall schema v = v
  | .vNull, _ => rfl
  | .vUndefined, _ => rfl
  | .vStr _, _ => rfl
  | .vNum _, _ => rfl
  | .vBool _, _ => rfl
  | .vDate _, h => by simp [inertB] at h
  | .vSet _, h => by simp [inertB] at h
  | .vArr l, h => by
      have h2 : inertListB schema l = true := by simpa [inertB] using h
      simp [IndexTs.postprocessFromMarshall, indexPostList_inert schema l h2]
  | .vObj kvs, h => by
      have h2 : inertObjB schema kvs = true := by simpa [inertB] using h
      simp [IndexTs.postprocessFromMarshall, indexPostObj_inert schema kvs h2]

theorem indexPostList_inert (schema : Schema) : ∀ l : List Value, inertListB schema l = true →
    IndexTs.postList schema l = l
  | [], _ => rfl
  | v :: vs, h => by
      have h2 : inertB schema v = true ∧ inertListB schema vs = true := by
        simpa [inertListB] using h
      simp [IndexTs.postList, indexPost_inert schema v h2.1, indexPostList_inert schema vs h2.2]

theorem indexPostObj_inert (schema : Schema) : ∀ kvs : List (String × Value),
    inertObjB schema kvs = true → IndexTs.postObj schema kvs = kvs
  | [], _ => rfl
  | (k, v) :: rest, h => by
      have h3 := h
      simp only [inertObjB, Bool.and_eq_true] at h3
      simp [IndexTs.postObj, indexPost_inert schema v h3.1.2,
        indexPostEntry_id (schemaGet schema k) v h3.1.1,
        indexPostObj_inert schema rest h3.2]

end

theorem ormPostEntry_roundtrip (schema : Schema) (k : String) (fd : FieldDef) (v : Value)
    (hfd : schemaGet schema k = some fd) (hc : fieldCompatB schema fd v = true) :
    OrmTs.postprocessEntry schema k (preprocessForMarshall v) = v := by
  cases htype : fd.type <;> cases v <;>
    simp_all [fieldCompatB, preprocessForMarshall, OrmTs.postprocessEntry,
      setFromList_distinct]
  case arrayT.vArr => exact preprocessList_inert schema _ hc
  case objectT.vObj => exact preprocessObj_inert schema _ hc

theorem indexEntry_roundtrip (schema : Schema) (fd : FieldDef) (v : Value)
    (hc : fieldCompatB schema fd v = true) :
    IndexTs.postEntry (some fd) (preprocessForMarshall v)
      (IndexTs.postprocessFromMarshall schema (preprocessForMarshall v)) = v := by
  cases htype : fd.type <;> cases v <;>
    simp_all [fieldCompatB, preprocessForMarshall, IndexTs.postEntry,
      IndexTs.postprocessFromMarshall, setFromList_distinct]
  case arrayT.vArr =>
      rw [preprocessList_inert schema _ hc]
      exact indexPostList_inert schema _ hc
  case objectT.vObj =>
      rw [preprocessObj_inert schema _ hc]
      exact indexPostObj_inert schema _ hc

theorem ormPost_roundtrip_record (schema : Schema) :
    ∀ r : Record, compatRecordB schema r = true →
      OrmTs.postprocessFromMarshall schema (preprocessRecord r) = r := by
  intro r
  induction r with
  | nil => intro _; rfl
  | cons kv rest ih =>
      intro h
      rcases kv with ⟨k, v⟩
      have h2 := h
      simp only [compatRecordB, List.all_cons, Bool.and_eq_true] at h2
      cases hfd : schemaGet schema k with
      | none => rw [hfd] at h2; simp at h2
      | some fd =>
          rw [hfd] at h2
          have hc : fieldCompatB schema fd v = true := h2.1
          have hrest : compatRecordB schema rest = true := h2.2
          show OrmTs.postprocessFromMarshall schema
            ((k, preprocessForMarshall v) :: preprocessObj rest) = (k, v) :: rest
          simp only [OrmTs.postprocessFromMarshall]
          rw [ormPostEntry_roundtrip schema k fd v hfd hc]
          have := ih hrest
          simp only [preprocessRecord] at this
          rw [this]

theorem indexPost_roundtrip_record (schema : Schema) :
    ∀ r : Record, compatRecordB schema r = true →
      IndexTs.postObj schema (preprocessRecord r) = r := by
  intro r
  induction r with
  | nil => intro _; rfl
  | cons kv rest ih =>
      intro h
      rcases kv with ⟨k, v⟩
      have h2 := h
      simp only [compatRecordB, List.all_cons, Bool.and_eq_true] at h2
      cases hfd : schemaGet schema k with
      | none => rw [hfd] at h2; simp at h2
      | some fd =>
          rw [hfd] at h2
          have hc : fieldCompatB schema fd v = true := h2.1
          have hrest : compatRecordB schema rest = true := h2.2
          show IndexTs.postObj schema
            ((k, preprocessForMarshall v) :: preprocessObj rest) = (k, v) :: rest
          simp only [IndexTs.postObj]
          rw [hfd, indexEntry_roundtrip schema fd v hc]
          have := ih hrest
          simp only [preprocessRecord] at this
          rw [this]

/-- C1: for every native record compatible with the schema (values match
their declared kinds at top level — including set and date — set elements
are scalar and distinct, and nested array/object contents are inert, as
the spec's top-level-only kind direction requires), the inbound transcoder
applied to the outbound transcoder's output returns the record unchanged:
this holds for the `src/orm.ts` pair and for the recursive `src/index.ts`
inbound variant alike.  The result is plain equality, which in particular
means set-valued fields agree as unordered collections. -/
theorem c1_transcoder_roundtrip (schema : Schema) (r : Record)
    (h : compatRecordB schema r = true) :
    preprocessForMarshall (.vObj r) = .vObj (preprocessRecord r) ∧
    OrmTs.postprocessFromMarshall schema (preprocessRecord r) = r ∧
    IndexTs.postObj schema (preprocessRecord r) = r :=
  ⟨rfl, ormPost_roundtrip_record schema r h, indexPost_roundtrip_record schema r h⟩

/-- Witness for C1: the concrete compatible record with a string, a
number, a boolean, a date and a two-element string set round-trips through
both transcoder pairs. -/
theorem c1_transcoder_roundtrip_witness :
    compatRecordB userSchema demoRecord = true ∧
    OrmTs.postprocessFromMarshall userSchema (preprocessRecord demoRecord) = demoRecord ∧
    IndexTs.postObj userSchema (preprocessRecord demoRecord) = demoRecord := by
  have hc : compatRecordB userSchema demoRecord = true := rfl
  have h := c1_transcoder_roundtrip userSchema demoRecord hc
  exact ⟨hc, h.2.1, h.2.2⟩
